import Mathlib

/-!
Verification of the build-cleaner core (Rust sources under `core/src` and
`cli/src`) against its natural-language specification.

The Rust code is shallowly embedded:

* Filesystem paths are modelled as lists of components (`Comp`), mirroring
  `std::path::Path::components()`: an absolute path starts with the
  `Comp.rootDir` component, followed by the normal components.
  Rust's `Path::starts_with` is a component-wise prefix test
  (in particular, `p.starts_with("/")` holds for every absolute `p`),
  embedded as `starts_with`.
* The filesystem itself is modelled in two ways, matching the two ways the
  code touches it: the delete engine sees a flat `FSModel` (a set of file
  paths with sizes plus a set of directory paths, all canonical, symlink
  free), while the search engine walks a tree (`FSNode` / `FSForest`) whose
  `errorEntry` nodes stand for entries that `walkdir` fails to read.
* Effectful operations (`fs::remove_file`, `fs::remove_dir_all`, …) become
  pure functions threading the `FSModel` state; fallible ones return
  `Except`.
* Machine integers (`u64`, `usize`) are modelled as `Nat`: all arithmetic
  involved is additions of file sizes and counters, where Rust would panic
  on overflow in debug mode and the values are far below `2^64` in any
  realistic filesystem, so no wrap-around is modelled.
-/

/-- A single path component, as in `std::path::Component`: either the root
directory of an absolute path or a normal named component. -/
inductive Comp where
  | rootDir : Comp
  | normal : String → Comp
deriving DecidableEq, Repr

/-- A path, as its list of components (`Path::components()`). -/
abbrev Rpath := List Comp

/-- Embedding of Rust `Path::starts_with`: `starts_with p base` holds when
`base`, read as a whole sequence of components, is a prefix of `p`.
Note `starts_with p [Comp.rootDir] = true` for every absolute `p`. -/
def starts_with : Rpath → Rpath → Bool
  | _, [] => true
  | [], _ :: _ => false
  | a :: p, b :: base => a == b && starts_with p base

theorem starts_with_iff (p base : Rpath) : starts_with p base = true ↔ base <+: p := by
  induction base generalizing p with
  | nil => simp [starts_with]
  | cons b bs ih =>
    cases p with
    | nil => simp [starts_with]
    | cons a p =>
      simp only [starts_with, Bool.and_eq_true, beq_iff_eq, ih, List.cons_prefix_cons]
      exact ⟨fun ⟨h1, h2⟩ => ⟨h1.symm, h2⟩, fun ⟨h1, h2⟩ => ⟨h1.symm, h2⟩⟩

/-- `Path::file_name()` of a component list: the last normal component's
name, defaulting to `""` (the code uses `.and_then(to_str).unwrap_or("")`). -/
def file_name (p : Rpath) : String :=
  match p.getLast? with
  | some (Comp.normal s) => s
  | _ => ""

/-- The number of components, as `Path::components().count()` (a leading
root directory counts as one component). -/
def components_count (p : Rpath) : Nat := p.length

/-- Embedding of `SearchEngine::glob_match_recursive` (search.rs:312-342),
recursion over the pattern suffix and text suffix; the loop
`for i in t_idx..=text.len()` at a star becomes a search over every
possible drop length of the remaining text. -/
def glob_match_recursive : List Char → List Char → Bool
  | [], t => t.isEmpty
  | p :: ps, t =>
    if p = '*' then
      (List.range (t.length + 1)).any fun i => glob_match_recursive ps (t.drop i)
    else
      match t with
      | [] => false
      | c :: ts =>
        if p = '?' then glob_match_recursive ps ts
        else c == p && glob_match_recursive ps ts

/-- Embedding of `SearchEngine::glob_match` (search.rs:306-310). -/
def glob_match (pattern text : String) : Bool :=
  glob_match_recursive pattern.toList text.toList

/-- Embedding of Rust `str::trim_end_matches('/')` on the character list of
the string: removes every trailing slash. -/
def trim_end_slashes (s : List Char) : List Char :=
  (s.reverse.dropWhile (fun c => c = '/')).reverse

/-- Embedding of `SearchEngine::match_pattern` (search.rs:297-304): a
pattern ending in a slash (`pattern.ends_with('/')`, tested here on the
character list) is compared for string equality with the name after
stripping the trailing slashes, any other pattern goes through the glob
matcher. -/
def match_pattern (pattern name : String) : Bool :=
  if pattern.toList.getLast? == some '/' then
    trim_end_slashes pattern.toList == name.toList
  else
    glob_match pattern name

/-- Embedding of `SearchEngine::check_size` (search.rs:383-395). -/
def check_size (size : Nat) (min_size max_size : Option Nat) : Bool :=
  if (match min_size with | some mn => decide (size < mn) | none => false) then false
  else if (match max_size with | some mx => decide (size > mx) | none => false) then false
  else true

/-- Embedding of `SearchEngine::check_age` (search.rs:397-424); the file's
age in days stands for `modified().elapsed()` divided by 86400, with both
metadata reads modelled as succeeding. -/
def check_age (age_days : Nat) (min_age_days max_age_days : Option Nat) : Bool :=
  if min_age_days.isNone && max_age_days.isNone then true
  else if (match min_age_days with | some mn => decide (age_days < mn) | none => false) then false
  else if (match max_age_days with | some mx => decide (age_days > mx) | none => false) then false
  else true

/-- Declarative backtracking-glob semantics, written from the spec's words
(§4.1): a star consumes an arbitrary amount of text (continuing on some
suffix), a question mark consumes exactly one character, a literal consumes
exactly one identical character, and a match requires pattern and text to
be exhausted simultaneously. -/
inductive GlobSpec : List Char → List Char → Prop where
  | nil : GlobSpec [] []
  | star {ps t s} (hs : s <:+ t) (hm : GlobSpec ps s) : GlobSpec ('*' :: ps) t
  | qmark {ps c ts} (hm : GlobSpec ps ts) : GlobSpec ('?' :: ps) (c :: ts)
  | lit {ps c ts} (h1 : c ≠ '*') (h2 : c ≠ '?') (hm : GlobSpec ps ts) :
      GlobSpec (c :: ps) (c :: ts)

theorem glob_star_eq (ps t : List Char) :
    glob_match_recursive ('*' :: ps) t =
      (List.range (t.length + 1)).any fun i => glob_match_recursive ps (t.drop i) := rfl

theorem glob_cons_nil_eq (p : Char) (ps : List Char) (h : p ≠ '*') :
    glob_match_recursive (p :: ps) [] = false := by
  simp only [glob_match_recursive, if_neg h]

theorem glob_qmark_eq (ps : List Char) (c : Char) (ts : List Char) :
    glob_match_recursive ('?' :: ps) (c :: ts) = glob_match_recursive ps ts := rfl

theorem glob_lit_eq (p : Char) (ps : List Char) (c : Char) (ts : List Char) (h1 : p ≠ '*')
    (h2 : p ≠ '?') :
    glob_match_recursive (p :: ps) (c :: ts) = (c == p && glob_match_recursive ps ts) := by
  simp only [glob_match_recursive, if_neg h1, if_neg h2]

theorem glob_match_recursive_iff (ps t : List Char) :
    glob_match_recursive ps t = true ↔ GlobSpec ps t := by
  induction ps generalizing t with
  | nil =>
    simp only [glob_match_recursive, List.isEmpty_iff]
    constructor
    · rintro rfl; exact GlobSpec.nil
    · rintro h; cases h; rfl
  | cons p ps ih =>
    by_cases hstar : p = '*'
    · subst hstar
      rw [glob_star_eq]
      simp only [List.any_eq_true, List.mem_range]
      constructor
      · rintro ⟨i, _, hm⟩
        exact GlobSpec.star (List.drop_suffix i t) ((ih _).mp hm)
      · intro h
        cases h with
        | star hs hm =>
          obtain ⟨u, rfl⟩ := hs
          refine ⟨u.length, by simp [Nat.lt_succ_iff], ?_⟩
          rw [List.drop_left]
          exact (ih _).mpr hm
        | lit h1 h2 hm => exact absurd rfl h1
    · cases t with
      | nil =>
        rw [glob_cons_nil_eq p ps hstar]
        constructor
        · intro h; cases h
        · intro h
          cases h with
          | star hs hm => exact absurd rfl hstar
      | cons c ts =>
        by_cases hq : p = '?'
        · subst hq
          rw [glob_qmark_eq, ih]
          constructor
          · exact fun h => GlobSpec.qmark h
          · intro h
            cases h with
            | qmark hm => exact hm
            | lit h1 h2 hm => exact absurd rfl h2
        · rw [glob_lit_eq p ps c ts hstar hq]
          simp only [Bool.and_eq_true, beq_iff_eq, ih]
          constructor
          · rintro ⟨rfl, hm⟩
            exact GlobSpec.lit hstar hq hm
          · intro h
            cases h with
            | star hs hm => exact absurd rfl hstar
            | qmark hm => exact absurd rfl hq
            | lit h1 h2 hm => exact ⟨rfl, hm⟩

/-- C7: the six documented pattern-matcher cases hold, and in general the
glob matcher accepts a pattern/text pair exactly when the declarative
backtracking semantics (`GlobSpec`) relates them: a star tries every
consumption length, a question mark and a literal consume one character,
and success requires simultaneous exhaustion of pattern and text. -/
theorem pattern_matcher_correct :
    match_pattern "*.log" "app.log" = true ∧
    match_pattern "*.log" "app.txt" = false ∧
    match_pattern "test?.txt" "test1.txt" = true ∧
    match_pattern "test?.txt" "test.txt" = false ∧
    match_pattern "node_modules/" "node_modules" = true ∧
    match_pattern "node_modules/" "node_modules_old" = false ∧
    ∀ pattern text : String,
      glob_match pattern text = true ↔ GlobSpec pattern.toList text.toList := by
  refine ⟨by decide, by decide, by decide, by decide, by decide, by decide, ?_⟩
  intro pattern text
  exact glob_match_recursive_iff pattern.toList text.toList

/-- C10: the size filter is inclusive at both bounds: `check_size` accepts
exactly when the size is at least the configured minimum (when set) and at
most the configured maximum (when set). -/
theorem check_size_inclusive (size : Nat) (min_size max_size : Option Nat) :
    check_size size min_size max_size = true ↔
      (∀ mn ∈ min_size, mn ≤ size) ∧ (∀ mx ∈ max_size, size ≤ mx) := by
  cases min_size <;> cases max_size <;>
    simp only [check_size, Option.mem_def, Option.some.injEq, forall_eq, Option.not_mem_none,
      false_implies, forall_const, true_and, and_true] <;>
    split_ifs <;> simp_all

/-- Embedding of `CleanError` (error.rs), with path payloads as component
lists. -/
inductive CleanError where
  | pathNotFound : Rpath → CleanError
  | permissionDenied : Rpath → CleanError
  | fileInUse : Rpath → CleanError
  | configParseError : String → CleanError
  | other : String → CleanError
deriving DecidableEq, Repr

/-- Rendering of one component for `Path::display()`. -/
def comp_str : Comp → String
  | Comp.rootDir => "/"
  | Comp.normal s => s

/-- Rendering of a path for `Path::display()` and `to_string_lossy()`: an
absolute path is a slash, then the normal components joined by slashes. -/
def path_str : Rpath → String
  | Comp.rootDir :: rest => "/" ++ String.intercalate "/" (rest.map comp_str)
  | p => String.intercalate "/" (p.map comp_str)

/-- The `Display` rendering of `CleanError` declared by the `thiserror`
attributes in error.rs, used by `e.to_string()` at the failure-recording
sites. -/
def error_string : CleanError → String
  | CleanError.pathNotFound p => "Path not found: " ++ path_str p
  | CleanError.permissionDenied p => "Permission denied: " ++ path_str p
  | CleanError.fileInUse p => "File in use: " ++ path_str p
  | CleanError.configParseError m => "Config parse error: " ++ m
  | CleanError.other m => "Other error: " ++ m

/-- Flat model of the filesystem as seen by the delete engine: a list of
regular files (canonical path and byte size) and a list of directories
(canonical paths). No symlinks; every stored path is already canonical. -/
structure FSModel where
  files : List (Rpath × Nat)
  dirs : List Rpath
deriving DecidableEq, Repr

def fs_is_file (fs : FSModel) (p : Rpath) : Bool :=
  fs.files.any fun f => f.1 == p

def fs_is_dir (fs : FSModel) (p : Rpath) : Bool :=
  fs.dirs.any fun d => d == p

def fs_exists (fs : FSModel) (p : Rpath) : Bool :=
  fs_is_file fs p || fs_is_dir fs p

/-- Model of `Path::canonicalize`: paths in `FSModel` are already canonical
and symlink-free, so canonicalization succeeds exactly on paths that exist
and returns them unchanged; on anything else the system call fails. -/
def canonicalize (fs : FSModel) (p : Rpath) : Option Rpath :=
  if fs_exists fs p then some p else none

/-- The fixed deny-list of `check_safety` (delete.rs:106-108) as component
lists: "/", "/usr", "/etc", "/bin", "/sbin", "/var", "/sys", "/proc". -/
def system_dirs : List Rpath :=
  [[Comp.rootDir],
   [Comp.rootDir, Comp.normal "usr"],
   [Comp.rootDir, Comp.normal "etc"],
   [Comp.rootDir, Comp.normal "bin"],
   [Comp.rootDir, Comp.normal "sbin"],
   [Comp.rootDir, Comp.normal "var"],
   [Comp.rootDir, Comp.normal "sys"],
   [Comp.rootDir, Comp.normal "proc"]]

/-- Substring test on character lists, embedding `str::contains` for a
literal needle. -/
def contains_seq (hay needle : List Char) : Bool :=
  hay.tails.any fun t => needle.isPrefixOf t

/-- The defensive parent-traversal check of `check_safety`
(delete.rs:120-123) on the rendered canonical path. -/
def dotdot_check (canonical : Rpath) : Bool :=
  let s := (path_str canonical).toList
  contains_seq s "/../".toList || "/..".toList.isSuffixOf s || "../".toList.isPrefixOf s

/-- Embedding of `DeleteEngine::check_safety` (delete.rs:101-126):
canonicalize (failure is a `PathNotFound` rejection), then reject when the
canonical path starts with any deny-list entry in the component-wise sense
of `Path::starts_with`, then reject a rendered path that still contains a
parent-traversal segment. -/
def check_safety (fs : FSModel) (path : Rpath) : Except CleanError Unit :=
  match canonicalize fs path with
  | none => Except.error (CleanError.pathNotFound path)
  | some canonical =>
    if system_dirs.any (fun sys_dir => starts_with canonical sys_dir) then
      Except.error (CleanError.other ("Cannot delete system directory: " ++ path_str canonical))
    else if dotdot_check canonical then
      Except.error (CleanError.other "Invalid path: contains ..")
    else
      Except.ok ()

/-- Embedding of `SearchResult` (search.rs:9-21). -/
structure SearchResult where
  folders : List Rpath
  files : List Rpath
  total_size : Nat
  total_dirs_scanned : Nat
  total_files_scanned : Nat
deriving DecidableEq, Repr

/-- Embedding of `DeletePlan` (delete.rs:25-31). -/
structure DeletePlan where
  files : List Rpath
  dirs : List Rpath
deriving DecidableEq, Repr

/-- Embedding of `DeleteResult` (delete.rs:10-22). -/
structure DeleteResult where
  deleted_files : List Rpath
  deleted_dirs : List Rpath
  failed_files : List (Rpath × String)
  failed_dirs : List (Rpath × String)
  total_size : Nat
deriving DecidableEq, Repr

/-- Ordered insertion for `sort_by`. -/
def insert_by {α : Type} (le : α → α → Bool) (a : α) : List α → List α
  | [] => [a]
  | b :: l => if le a b then a :: b :: l else b :: insert_by le a l

/-- Embedding of Rust `slice::sort_by`: Rust documents `sort_by` as a
stable sort, and a stable sort's output is uniquely determined by the
comparator and input, so stable insertion sort is an exact model. -/
def sort_by {α : Type} (le : α → α → Bool) : List α → List α
  | [] => []
  | a :: l => insert_by le a (sort_by le l)

/-- Embedding of `DeleteEngine::create_delete_plan` (delete.rs:76-92):
files verbatim, directories paired with their component count and stably
sorted by the comparator `b.1.cmp(&a.1)`, i.e. descending depth. -/
def create_delete_plan (search_result : SearchResult) : DeletePlan :=
  let files := search_result.files
  let dirs_with_depth := search_result.folders.map fun dir => (dir, components_count dir)
  let sorted := sort_by (fun a b => decide (b.2 ≤ a.2)) dirs_with_depth
  { files := files, dirs := sorted.map fun x => x.1 }

/-- Embedding of `calculate_dir_size` (delete.rs:47-67): a fresh `walkdir`
sub-walk of the real filesystem summing the sizes of every regular file
at or below the path; unreadable entries contribute nothing. -/
def calculate_dir_size (fs : FSModel) (dir_path : Rpath) : Nat :=
  ((fs.files.filter fun f => starts_with f.1 dir_path).map fun f => f.2).sum

/-- Model of `fs::metadata(p).map(|m| m.len())`: the stored size of a file,
a filesystem-specific number for a directory (irrelevant to any claim and
modelled as 0), failure when the path does not exist. -/
def metadata_len (fs : FSModel) (p : Rpath) : Option Nat :=
  match fs.files.find? (fun f => f.1 == p) with
  | some f => some f.2
  | none => if fs_is_dir fs p then some 0 else none

/-- Model of `fs::remove_file`, with the io error rendered as its `Display`
string. -/
def remove_file (fs : FSModel) (p : Rpath) : Except String FSModel :=
  if fs_is_file fs p then
    Except.ok { fs with files := fs.files.filter fun f => !(f.1 == p) }
  else
    Except.error "No such file or directory (os error 2)"

/-- Model of `fs::remove_dir_all`: removes the directory and everything at
or below it. -/
def remove_dir_all (fs : FSModel) (p : Rpath) : Except String FSModel :=
  if fs_is_dir fs p then
    Except.ok { files := fs.files.filter fun f => !(starts_with f.1 p),
                dirs := fs.dirs.filter fun d => !(starts_with d p) }
  else
    Except.error "No such file or directory (os error 2)"

/-- Output of one executor loop: updated filesystem, deleted list, failed
list, freed-bytes sum. -/
structure LoopOut where
  fs : FSModel
  deleted : List Rpath
  failed : List (Rpath × String)
  size : Nat
deriving DecidableEq, Repr

/-- The real-mode file loop of `execute_deletion_with_progress`
(delete.rs:224-244): per file, safety check, then read the size, then
remove; a failure of either step appends to the failed list and the loop
continues with the next file. -/
def delete_files_loop : FSModel → List Rpath → LoopOut
  | fs, [] => ⟨fs, [], [], 0⟩
  | fs, file :: rest =>
    match check_safety fs file with
    | Except.ok _ =>
      let file_size := (metadata_len fs file).getD 0
      match remove_file fs file with
      | Except.ok fs2 =>
        let r := delete_files_loop fs2 rest
        ⟨r.fs, file :: r.deleted, r.failed, file_size + r.size⟩
      | Except.error e =>
        let r := delete_files_loop fs rest
        ⟨r.fs, r.deleted, (file, e) :: r.failed, r.size⟩
    | Except.error e =>
      let r := delete_files_loop fs rest
      ⟨r.fs, r.deleted, (file, error_string e) :: r.failed, r.size⟩

/-- The real-mode directory loop of `execute_deletion_with_progress`
(delete.rs:246-267): per directory, safety check, then a sub-walk size
computation, then `remove_dir_all`; failures append to the failed list and
the loop continues. -/
def delete_dirs_loop : FSModel → List Rpath → LoopOut
  | fs, [] => ⟨fs, [], [], 0⟩
  | fs, dir :: rest =>
    match check_safety fs dir with
    | Except.ok _ =>
      let dir_size := calculate_dir_size fs dir
      match remove_dir_all fs dir with
      | Except.ok fs2 =>
        let r := delete_dirs_loop fs2 rest
        ⟨r.fs, dir :: r.deleted, r.failed, dir_size + r.size⟩
      | Except.error e =>
        let r := delete_dirs_loop fs rest
        ⟨r.fs, r.deleted, (dir, e) :: r.failed, r.size⟩
    | Except.error e =>
      let r := delete_dirs_loop fs rest
      ⟨r.fs, r.deleted, (dir, error_string e) :: r.failed, r.size⟩

/-- Embedding of `DeleteEngine::execute_deletion_with_progress`
(delete.rs:177-276). The dry-run branch mutates nothing and reports every
planned item as deleted, re-reading file metadata and re-walking each
directory to rebuild total_size; the real branch runs the two loops. The
progress callback is pure I/O and does not influence any state. -/
def execute_deletion_with_progress (fs : FSModel) (plan : DeletePlan) (dry_run : Bool) :
    FSModel × DeleteResult :=
  if dry_run then
    let files_size := (plan.files.map fun file => (metadata_len fs file).getD 0).sum
    let dirs_size := (plan.dirs.map fun dir => calculate_dir_size fs dir).sum
    (fs, { deleted_files := plan.files, deleted_dirs := plan.dirs, failed_files := [],
           failed_dirs := [], total_size := files_size + dirs_size })
  else
    let rf := delete_files_loop fs plan.files
    let rd := delete_dirs_loop rf.fs plan.dirs
    (rd.fs, { deleted_files := rf.deleted, deleted_dirs := rd.deleted,
              failed_files := rf.failed, failed_dirs := rd.failed,
              total_size := rf.size + rd.size })

/-- Embedding of `DeleteEngine::execute_deletion` (delete.rs:160-166). -/
def execute_deletion (fs : FSModel) (plan : DeletePlan) (dry_run : Bool) :
    FSModel × DeleteResult :=
  execute_deletion_with_progress fs plan dry_run

/-- Embedding of `DeleteEngine::execute_deletion_from_search`
(delete.rs:137-157): in dry-run mode the already-computed
`SearchResult.total_size` is reported directly, without touching the
filesystem; otherwise the plan is executed for real. -/
def execute_deletion_from_search (fs : FSModel) (search_result : SearchResult)
    (dry_run : Bool) : FSModel × DeleteResult :=
  let plan := create_delete_plan search_result
  if dry_run then
    (fs, { deleted_files := plan.files, deleted_dirs := plan.dirs, failed_files := [],
           failed_dirs := [], total_size := search_result.total_size })
  else
    execute_deletion fs plan false

theorem insert_by_perm {α : Type} (le : α → α → Bool) (a : α) (l : List α) :
    List.Perm (insert_by le a l) (a :: l) := by
  induction l with
  | nil => exact List.Perm.refl _
  | cons b l ih =>
    simp only [insert_by]
    by_cases h : le a b
    · rw [if_pos h]
    · rw [if_neg h]
      exact (List.Perm.cons b ih).trans (List.Perm.swap a b l)

theorem sort_by_perm {α : Type} (le : α → α → Bool) (l : List α) :
    List.Perm (sort_by le l) l := by
  induction l with
  | nil => exact List.Perm.refl _
  | cons a l ih => exact (insert_by_perm le a (sort_by le l)).trans (List.Perm.cons a ih)

theorem insert_by_pairwise {α : Type} (le : α → α → Bool)
    (htrans : ∀ a b c, le a b = true → le b c = true → le a c = true)
    (htot : ∀ a b, le a b = false → le b a = true) (a : α) (l : List α)
    (hl : l.Pairwise fun x y => le x y = true) :
    (insert_by le a l).Pairwise fun x y => le x y = true := by
  induction l with
  | nil => simp [insert_by]
  | cons b l ih =>
    rcases hl with _ | ⟨hb, hl⟩
    simp only [insert_by]
    by_cases h : le a b = true
    · rw [if_pos h]
      refine List.Pairwise.cons ?_ (List.Pairwise.cons hb hl)
      intro y hy
      rcases List.mem_cons.mp hy with rfl | hy
      · exact h
      · exact htrans a b y h (hb y hy)
    · rw [if_neg h]
      refine List.Pairwise.cons ?_ (ih hl)
      intro y hy
      have hy2 : y ∈ a :: l := (insert_by_perm le a l).subset hy
      rcases List.mem_cons.mp hy2 with heq | hy2
      · rw [heq]
        exact htot a b (Bool.eq_false_iff.mpr h)
      · exact hb y hy2

theorem sort_by_pairwise {α : Type} (le : α → α → Bool)
    (htrans : ∀ a b c, le a b = true → le b c = true → le a c = true)
    (htot : ∀ a b, le a b = false → le b a = true) (l : List α) :
    (sort_by le l).Pairwise fun x y => le x y = true := by
  induction l with
  | nil => simp [sort_by]
  | cons a l ih => exact insert_by_pairwise le htrans htot a (sort_by le l) ih

theorem create_delete_plan_dirs_eq (search_result : SearchResult) :
    (create_delete_plan search_result).dirs =
      (sort_by (fun a b => decide (b.2 ≤ a.2))
        (search_result.folders.map fun dir => (dir, components_count dir))).map
        (fun x => x.1) := rfl

/-- C5: `create_delete_plan` is pure; its files list is the search result's
files verbatim; its dirs list is the same multiset of folders, ordered by
non-increasing component count (deepest first); and on the documented
example /a/b, /a/b/c, /a/b/c/d the output order is exactly /a/b/c/d,
/a/b/c, /a/b. -/
theorem create_delete_plan_correct (search_result : SearchResult) :
    (create_delete_plan search_result).files = search_result.files ∧
    (create_delete_plan search_result).dirs.Perm search_result.folders ∧
    (create_delete_plan search_result).dirs.Pairwise
      (fun a b => components_count b ≤ components_count a) ∧
    (create_delete_plan
        { folders := [[Comp.rootDir, Comp.normal "a", Comp.normal "b"],
                      [Comp.rootDir, Comp.normal "a", Comp.normal "b", Comp.normal "c"],
                      [Comp.rootDir, Comp.normal "a", Comp.normal "b", Comp.normal "c",
                        Comp.normal "d"]],
          files := [], total_size := 0, total_dirs_scanned := 0,
          total_files_scanned := 0 }).dirs =
      [[Comp.rootDir, Comp.normal "a", Comp.normal "b", Comp.normal "c", Comp.normal "d"],
       [Comp.rootDir, Comp.normal "a", Comp.normal "b", Comp.normal "c"],
       [Comp.rootDir, Comp.normal "a", Comp.normal "b"]] := by
  have htrans : ∀ a b c : Rpath × Nat, (fun a b : Rpath × Nat => decide (b.2 ≤ a.2)) a b = true →
      (fun a b : Rpath × Nat => decide (b.2 ≤ a.2)) b c = true →
      (fun a b : Rpath × Nat => decide (b.2 ≤ a.2)) a c = true := by
    intro a b c h1 h2
    simp only [decide_eq_true_eq] at h1 h2 ⊢
    omega
  have htot : ∀ a b : Rpath × Nat, (fun a b : Rpath × Nat => decide (b.2 ≤ a.2)) a b = false →
      (fun a b : Rpath × Nat => decide (b.2 ≤ a.2)) b a = true := by
    intro a b h
    simp only [decide_eq_false_iff_not] at h
    simp only [decide_eq_true_eq]
    omega
  refine ⟨rfl, ?_, ?_, by decide⟩
  · rw [create_delete_plan_dirs_eq]
    have h1 := (sort_by_perm (fun a b : Rpath × Nat => decide (b.2 ≤ a.2))
      (search_result.folders.map fun dir => (dir, components_count dir))).map
      (fun x : Rpath × Nat => x.1)
    refine h1.trans ?_
    rw [List.map_map]
    exact (List.map_id search_result.folders).symm ▸ List.Perm.refl _
  · rw [create_delete_plan_dirs_eq, List.pairwise_map]
    have hsort := sort_by_pairwise (fun a b : Rpath × Nat => decide (b.2 ≤ a.2)) htrans htot
      (search_result.folders.map fun dir => (dir, components_count dir))
    have hmem : ∀ x ∈ sort_by (fun a b : Rpath × Nat => decide (b.2 ≤ a.2))
        (search_result.folders.map fun dir => (dir, components_count dir)),
        x.2 = components_count x.1 := by
      intro x hx
      have hx2 : x ∈ search_result.folders.map fun dir => (dir, components_count dir) :=
        (sort_by_perm _ _).subset hx
      obtain ⟨d, _, rfl⟩ := List.mem_map.mp hx2
      rfl
    refine List.Pairwise.imp_of_mem ?_ hsort
    intro a b ha hb hr
    have hr2 : b.2 ≤ a.2 := of_decide_eq_true hr
    rw [hmem a ha, hmem b hb] at hr2
    exact hr2

theorem delete_files_loop_partition (files : List Rpath) : ∀ fs : FSModel,
    (delete_files_loop fs files).deleted.length +
      (delete_files_loop fs files).failed.length = files.length ∧
    ∀ f ∈ files, f ∈ (delete_files_loop fs files).deleted ∨
      ∃ m, (f, m) ∈ (delete_files_loop fs files).failed := by
  induction files with
  | nil => intro fs; simp [delete_files_loop]
  | cons file rest ih =>
    intro fs
    cases hcs : check_safety fs file with
    | ok u =>
      cases hrm : remove_file fs file with
      | ok fs2 =>
        obtain ⟨h1, h2⟩ := ih fs2
        simp only [delete_files_loop, hcs, hrm]
        constructor
        · simp only [List.length_cons]
          omega
        · intro f hf
          rcases List.mem_cons.mp hf with heq | hf
          · left; rw [heq]; exact List.mem_cons_self _ _
          · rcases h2 f hf with hd | ⟨m, hm⟩
            · left; exact List.mem_cons_of_mem _ hd
            · right; exact ⟨m, hm⟩
      | error e =>
        obtain ⟨h1, h2⟩ := ih fs
        simp only [delete_files_loop, hcs, hrm]
        constructor
        · simp only [List.length_cons]
          omega
        · intro f hf
          rcases List.mem_cons.mp hf with heq | hf
          · right; exact ⟨e, by rw [heq]; exact List.mem_cons_self _ _⟩
          · rcases h2 f hf with hd | ⟨m, hm⟩
            · left; exact hd
            · right; exact ⟨m, List.mem_cons_of_mem _ hm⟩
    | error e =>
      obtain ⟨h1, h2⟩ := ih fs
      simp only [delete_files_loop, hcs]
      constructor
      · simp only [List.length_cons]
        omega
      · intro f hf
        rcases List.mem_cons.mp hf with heq | hf
        · right; exact ⟨error_string e, by rw [heq]; exact List.mem_cons_self _ _⟩
        · rcases h2 f hf with hd | ⟨m, hm⟩
          · left; exact hd
          · right; exact ⟨m, List.mem_cons_of_mem _ hm⟩

theorem delete_dirs_loop_partition (dirs : List Rpath) : ∀ fs : FSModel,
    (delete_dirs_loop fs dirs).deleted.length +
      (delete_dirs_loop fs dirs).failed.length = dirs.length ∧
    ∀ d ∈ dirs, d ∈ (delete_dirs_loop fs dirs).deleted ∨
      ∃ m, (d, m) ∈ (delete_dirs_loop fs dirs).failed := by
  induction dirs with
  | nil => intro fs; simp [delete_dirs_loop]
  | cons dir rest ih =>
    intro fs
    cases hcs : check_safety fs dir with
    | ok u =>
      cases hrm : remove_dir_all fs dir with
      | ok fs2 =>
        obtain ⟨h1, h2⟩ := ih fs2
        simp only [delete_dirs_loop, hcs, hrm]
        constructor
        · simp only [List.length_cons]
          omega
        · intro d hd
          rcases List.mem_cons.mp hd with heq | hd
          · left; rw [heq]; exact List.mem_cons_self _ _
          · rcases h2 d hd with hx | ⟨m, hm⟩
            · left; exact List.mem_cons_of_mem _ hx
            · right; exact ⟨m, hm⟩
      | error e =>
        obtain ⟨h1, h2⟩ := ih fs
        simp only [delete_dirs_loop, hcs, hrm]
        constructor
        · simp only [List.length_cons]
          omega
        · intro d hd
          rcases List.mem_cons.mp hd with heq | hd
          · right; exact ⟨e, by rw [heq]; exact List.mem_cons_self _ _⟩
          · rcases h2 d hd with hx | ⟨m, hm⟩
            · left; exact hx
            · right; exact ⟨m, List.mem_cons_of_mem _ hm⟩
    | error e =>
      obtain ⟨h1, h2⟩ := ih fs
      simp only [delete_dirs_loop, hcs]
      constructor
      · simp only [List.length_cons]
        omega
      · intro d hd
        rcases List.mem_cons.mp hd with heq | hd
        · right; exact ⟨error_string e, by rw [heq]; exact List.mem_cons_self _ _⟩
        · rcases h2 d hd with hx | ⟨m, hm⟩
          · left; exact hx
          · right; exact ⟨m, List.mem_cons_of_mem _ hm⟩

/-- C6: in real (non-dry-run) mode every planned file lands in exactly one
of deleted_files or failed_files and every planned directory in exactly one
of deleted_dirs or failed_dirs — the loops push exactly one outcome per
item, so the lengths add up to the plan's lengths and every planned item
appears in an outcome list; one item's failure never stops the others. -/
theorem real_mode_partitions_plan (fs : FSModel) (plan : DeletePlan) :
    ((execute_deletion fs plan false).2.deleted_files.length +
      (execute_deletion fs plan false).2.failed_files.length = plan.files.length) ∧
    ((execute_deletion fs plan false).2.deleted_dirs.length +
      (execute_deletion fs plan false).2.failed_dirs.length = plan.dirs.length) ∧
    (∀ f ∈ plan.files, f ∈ (execute_deletion fs plan false).2.deleted_files ∨
      ∃ m, (f, m) ∈ (execute_deletion fs plan false).2.failed_files) ∧
    (∀ d ∈ plan.dirs, d ∈ (execute_deletion fs plan false).2.deleted_dirs ∨
      ∃ m, (d, m) ∈ (execute_deletion fs plan false).2.failed_dirs) := by
  obtain ⟨hf1, hf2⟩ := delete_files_loop_partition plan.files fs
  obtain ⟨hd1, hd2⟩ := delete_dirs_loop_partition plan.dirs (delete_files_loop fs plan.files).fs
  exact ⟨hf1, hd1, hf2, hd2⟩

theorem check_safety_error_of_protected (fs : FSModel) (p : Rpath)
    (h : ∃ sys_dir ∈ system_dirs, starts_with p sys_dir = true) :
    ∃ e, check_safety fs p = Except.error e := by
  unfold check_safety canonicalize
  by_cases hex : fs_exists fs p
  · rw [if_pos hex]
    have hany : system_dirs.any (fun sys_dir => starts_with p sys_dir) = true := by
      obtain ⟨d, hd, hsw⟩ := h
      exact List.any_eq_true.mpr ⟨d, hd, hsw⟩
    simp only [hany, if_pos]
    exact ⟨_, rfl⟩
  · rw [if_neg hex]
    exact ⟨_, rfl⟩

theorem delete_files_loop_failed_of_unsafe (files : List Rpath) : ∀ fs : FSModel, ∀ f ∈ files,
    (∀ fs2 : FSModel, ∃ e, check_safety fs2 f = Except.error e) →
    f ∈ (delete_files_loop fs files).failed.map Prod.fst := by
  induction files with
  | nil => intro fs f hf; simp at hf
  | cons file rest ih =>
    intro fs f hf hbad
    rcases List.mem_cons.mp hf with heq | hf
    · subst heq
      obtain ⟨e, he⟩ := hbad fs
      simp only [delete_files_loop, he, List.map_cons, List.mem_cons]
      left
      trivial
    · cases hcs : check_safety fs file with
      | ok u =>
        cases hrm : remove_file fs file with
        | ok fs2 =>
          simp only [delete_files_loop, hcs, hrm]
          exact ih fs2 f hf hbad
        | error e =>
          simp only [delete_files_loop, hcs, hrm, List.map_cons, List.mem_cons]
          right
          exact ih fs f hf hbad
      | error e =>
        simp only [delete_files_loop, hcs, List.map_cons, List.mem_cons]
        right
        exact ih fs f hf hbad

theorem delete_dirs_loop_failed_of_unsafe (dirs : List Rpath) : ∀ fs : FSModel, ∀ d ∈ dirs,
    (∀ fs2 : FSModel, ∃ e, check_safety fs2 d = Except.error e) →
    d ∈ (delete_dirs_loop fs dirs).failed.map Prod.fst := by
  induction dirs with
  | nil => intro fs d hd; simp at hd
  | cons dir rest ih =>
    intro fs d hd hbad
    rcases List.mem_cons.mp hd with heq | hd
    · subst heq
      obtain ⟨e, he⟩ := hbad fs
      simp only [delete_dirs_loop, he, List.map_cons, List.mem_cons]
      left
      trivial
    · cases hcs : check_safety fs dir with
      | ok u =>
        cases hrm : remove_dir_all fs dir with
        | ok fs2 =>
          simp only [delete_dirs_loop, hcs, hrm]
          exact ih fs2 d hd hbad
        | error e =>
          simp only [delete_dirs_loop, hcs, hrm, List.map_cons, List.mem_cons]
          right
          exact ih fs d hd hbad
      | error e =>
        simp only [delete_dirs_loop, hcs, List.map_cons, List.mem_cons]
        right
        exact ih fs d hd hbad

/-- C9: the dry-run branch of the executor performs no safety validation:
it leaves the filesystem untouched and reports every planned item as
deleted with empty failed lists, even for items under a protected root or
items that do not exist; in real mode, an item under a protected root is
instead rejected by the safety check and lands in the failed list. -/
theorem dry_run_bypasses_safety (fs : FSModel) (plan : DeletePlan) :
    (execute_deletion fs plan true).1 = fs ∧
    (execute_deletion fs plan true).2.deleted_files = plan.files ∧
    (execute_deletion fs plan true).2.deleted_dirs = plan.dirs ∧
    (execute_deletion fs plan true).2.failed_files = [] ∧
    (execute_deletion fs plan true).2.failed_dirs = [] ∧
    (∀ file ∈ plan.files, (∃ sys_dir ∈ system_dirs, starts_with file sys_dir = true) →
      file ∈ (execute_deletion fs plan false).2.failed_files.map Prod.fst) ∧
    (∀ dir ∈ plan.dirs, (∃ sys_dir ∈ system_dirs, starts_with dir sys_dir = true) →
      dir ∈ (execute_deletion fs plan false).2.failed_dirs.map Prod.fst) := by
  refine ⟨rfl, rfl, rfl, rfl, rfl, ?_, ?_⟩
  · intro file hf hprot
    exact delete_files_loop_failed_of_unsafe plan.files fs file hf
      (fun fs2 => check_safety_error_of_protected fs2 file hprot)
  · intro dir hd hprot
    exact delete_dirs_loop_failed_of_unsafe plan.dirs
      (delete_files_loop fs plan.files).fs dir hd
      (fun fs2 => check_safety_error_of_protected fs2 dir hprot)

/-- Witness for C9 at a concrete input: a file under /usr and a directory
under /etc are reported deleted by the dry run, and land in the failed
lists of the real run. -/
theorem dry_run_bypasses_safety_witness :
    (execute_deletion { files := [], dirs := [] }
        { files := [[Comp.rootDir, Comp.normal "usr", Comp.normal "x"]],
          dirs := [[Comp.rootDir, Comp.normal "etc", Comp.normal "y"]] } true).2.deleted_files =
      [[Comp.rootDir, Comp.normal "usr", Comp.normal "x"]] ∧
    [Comp.rootDir, Comp.normal "usr", Comp.normal "x"] ∈
      (execute_deletion { files := [], dirs := [] }
        { files := [[Comp.rootDir, Comp.normal "usr", Comp.normal "x"]],
          dirs := [[Comp.rootDir, Comp.normal "etc", Comp.normal "y"]] }
        false).2.failed_files.map Prod.fst ∧
    [Comp.rootDir, Comp.normal "etc", Comp.normal "y"] ∈
      (execute_deletion { files := [], dirs := [] }
        { files := [[Comp.rootDir, Comp.normal "usr", Comp.normal "x"]],
          dirs := [[Comp.rootDir, Comp.normal "etc", Comp.normal "y"]] }
        false).2.failed_dirs.map Prod.fst :=
  ⟨(dry_run_bypasses_safety { files := [], dirs := [] }
      { files := [[Comp.rootDir, Comp.normal "usr", Comp.normal "x"]],
        dirs := [[Comp.rootDir, Comp.normal "etc", Comp.normal "y"]] }).2.1,
   (dry_run_bypasses_safety { files := [], dirs := [] }
      { files := [[Comp.rootDir, Comp.normal "usr", Comp.normal "x"]],
        dirs := [[Comp.rootDir, Comp.normal "etc", Comp.normal "y"]] }).2.2.2.2.2.1
      _ (by decide) (by decide),
   (dry_run_bypasses_safety { files := [], dirs := [] }
      { files := [[Comp.rootDir, Comp.normal "usr", Comp.normal "x"]],
        dirs := [[Comp.rootDir, Comp.normal "etc", Comp.normal "y"]] }).2.2.2.2.2.2
      _ (by decide) (by decide)⟩

/-- A canonical path under an ordinary writable directory, far from any
system location: /home/user/project/target. -/
def c1_target : Rpath :=
  [Comp.rootDir, Comp.normal "home", Comp.normal "user", Comp.normal "project",
   Comp.normal "target"]

/-- A filesystem holding that directory and /usr/bin. -/
def c1_fs : FSModel :=
  { files := [],
    dirs := [c1_target, [Comp.rootDir, Comp.normal "usr", Comp.normal "bin"]] }

/-- C1: evaluation of `check_safety` at the failing input. The existing
canonical path /home/user/project/target lies under no deny-list entry
other than the root directory itself, yet the validator rejects it as a
system directory — because the deny-list contains "/" and Rust's
`Path::starts_with` is a component-wise prefix test, so every absolute
canonical path matches the "/" entry. Rejection of paths under genuine
protected roots (here /usr/bin) also holds, but no canonicalizable path is
ever accepted, contradicting the accepted half of the claim. -/
theorem check_safety_rejects_ordinary_writable_path :
    fs_exists c1_fs c1_target = true ∧
    (∀ sys_dir ∈ system_dirs, sys_dir = [Comp.rootDir] ∨
      starts_with c1_target sys_dir = false) ∧
    check_safety c1_fs c1_target =
      Except.error
        (CleanError.other "Cannot delete system directory: /home/user/project/target") ∧
    check_safety c1_fs [Comp.rootDir, Comp.normal "usr", Comp.normal "bin"] =
      Except.error (CleanError.other "Cannot delete system directory: /usr/bin") := by
  refine ⟨by decide, by decide, ?_, ?_⟩ <;> rfl

/-- C4 (amended): the search-level entry point reports the SearchResult's
already-computed total in dry-run mode, without touching the filesystem;
the plan-level executor instead rebuilds total_size in dry-run mode by
re-reading each planned file's metadata and re-walking each planned
directory. In both, nothing is removed and every planned item is reported
deleted with empty failed lists. -/
theorem dry_run_size_semantics (fs : FSModel) (search_result : SearchResult)
    (plan : DeletePlan) :
    ((execute_deletion_from_search fs search_result true).1 = fs ∧
     (execute_deletion_from_search fs search_result true).2.total_size =
       search_result.total_size ∧
     (execute_deletion_from_search fs search_result true).2.deleted_files =
       (create_delete_plan search_result).files ∧
     (execute_deletion_from_search fs search_result true).2.deleted_dirs =
       (create_delete_plan search_result).dirs ∧
     (execute_deletion_from_search fs search_result true).2.failed_files = [] ∧
     (execute_deletion_from_search fs search_result true).2.failed_dirs = []) ∧
    ((execute_deletion fs plan true).1 = fs ∧
     (execute_deletion fs plan true).2.total_size =
       (plan.files.map fun file => (metadata_len fs file).getD 0).sum +
       (plan.dirs.map fun dir => calculate_dir_size fs dir).sum) :=
  ⟨⟨rfl, rfl, rfl, rfl, rfl, rfl⟩, rfl, rfl⟩

/-- A matched directory /w/target holding one 7-byte file. -/
def c4_fs : FSModel :=
  { files := [([Comp.rootDir, Comp.normal "w", Comp.normal "target", Comp.normal "f.o"], 7)],
    dirs := [[Comp.rootDir, Comp.normal "w", Comp.normal "target"]] }

/-- A search result for that directory whose recorded total is 100 bytes. -/
def c4_search_result : SearchResult :=
  { folders := [[Comp.rootDir, Comp.normal "w", Comp.normal "target"]], files := [],
    total_size := 100, total_dirs_scanned := 1, total_files_scanned := 0 }

/-- C4 counterexample: executing the derived plan in dry-run mode through
`execute_deletion` reports 7 bytes — the result of a fresh directory
re-walk — not the SearchResult's already-computed 100 bytes, which the
search-level entry point reports; so the claim that the dry-run executor
always takes total_size directly from the SearchResult and never re-walks
is false at this input. -/
theorem dry_run_recomputes_counterexample :
    (execute_deletion c4_fs (create_delete_plan c4_search_result) true).2.total_size = 7 ∧
    (execute_deletion_from_search c4_fs c4_search_result true).2.total_size = 100 ∧
    c4_search_result.total_size = 100 ∧
    (execute_deletion c4_fs (create_delete_plan c4_search_result) true).2.total_size ≠
      c4_search_result.total_size := by
  refine ⟨by decide, by decide, by decide, by decide⟩

/-- Witness for C6 at a concrete input: a plan with one existing and one
missing file, executed for real: outcomes partition the plan. -/
theorem real_mode_partitions_plan_witness :
    ((execute_deletion
        { files := [([Comp.rootDir, Comp.normal "t", Comp.normal "a"], 3)], dirs := [] }
        { files := [[Comp.rootDir, Comp.normal "t", Comp.normal "a"],
                    [Comp.rootDir, Comp.normal "t", Comp.normal "gone"]], dirs := [] }
        false).2.deleted_files.length +
      (execute_deletion
        { files := [([Comp.rootDir, Comp.normal "t", Comp.normal "a"], 3)], dirs := [] }
        { files := [[Comp.rootDir, Comp.normal "t", Comp.normal "a"],
                    [Comp.rootDir, Comp.normal "t", Comp.normal "gone"]], dirs := [] }
        false).2.failed_files.length = 2) ∧
    ([Comp.rootDir, Comp.normal "t", Comp.normal "a"] ∈
      (execute_deletion
        { files := [([Comp.rootDir, Comp.normal "t", Comp.normal "a"], 3)], dirs := [] }
        { files := [[Comp.rootDir, Comp.normal "t", Comp.normal "a"],
                    [Comp.rootDir, Comp.normal "t", Comp.normal "gone"]], dirs := [] }
        false).2.deleted_files ∨
     ∃ m, ([Comp.rootDir, Comp.normal "t", Comp.normal "a"], m) ∈
      (execute_deletion
        { files := [([Comp.rootDir, Comp.normal "t", Comp.normal "a"], 3)], dirs := [] }
        { files := [[Comp.rootDir, Comp.normal "t", Comp.normal "a"],
                    [Comp.rootDir, Comp.normal "t", Comp.normal "gone"]], dirs := [] }
        false).2.failed_files) :=
  ⟨(real_mode_partitions_plan
      { files := [([Comp.rootDir, Comp.normal "t", Comp.normal "a"], 3)], dirs := [] }
      { files := [[Comp.rootDir, Comp.normal "t", Comp.normal "a"],
                  [Comp.rootDir, Comp.normal "t", Comp.normal "gone"]], dirs := [] }).1,
   (real_mode_partitions_plan
      { files := [([Comp.rootDir, Comp.normal "t", Comp.normal "a"], 3)], dirs := [] }
      { files := [[Comp.rootDir, Comp.normal "t", Comp.normal "a"],
                  [Comp.rootDir, Comp.normal "t", Comp.normal "gone"]], dirs := [] }).2.2.1
      _ (by decide)⟩

/-- Embedding of `CleanConfig` (config.rs:19-25). -/
structure CleanConfig where
  folders : List String
  files : List String
deriving DecidableEq, Repr

/-- Embedding of `Options` (config.rs:28-44). -/
structure Options where
  recursive : Bool
  follow_symlinks : Bool
  min_size : Option Nat
  max_size : Option Nat
  min_age_days : Option Nat
  max_age_days : Option Nat
deriving DecidableEq, Repr

/-- Embedding of `Config` (config.rs:8-16), with exclude paths as component
lists. -/
structure Config where
  clean : CleanConfig
  exclude : List Rpath
  options : Options
deriving DecidableEq, Repr

/-- Embedding of `SearchOptions` (search.rs:24-40). -/
structure SearchOptions where
  recursive : Bool
  follow_symlinks : Bool
  max_depth : Option Nat
  min_size : Option Nat
  max_size : Option Nat
  min_age_days : Option Nat
  max_age_days : Option Nat
deriving DecidableEq, Repr

/-- Embedding of the `From<&Options> for SearchOptions` impl
(config.rs:309-321): `max_depth` is always `None`. -/
def options_to_search_options (o : Options) : SearchOptions :=
  { recursive := o.recursive, follow_symlinks := o.follow_symlinks, max_depth := none,
    min_size := o.min_size, max_size := o.max_size, min_age_days := o.min_age_days,
    max_age_days := o.max_age_days }

/-- Embedding of `ConfigLoader::validate_config` (config.rs:299-306). -/
def validate_config (config : Config) : Except CleanError Unit :=
  if config.clean.folders.isEmpty && config.clean.files.isEmpty then
    Except.error
      (CleanError.configParseError "At least one folder or file pattern must be specified")
  else
    Except.ok ()

/-- Embedding of `ConfigLoader::validate_path` (config.rs:105-116) against
the flat filesystem model. -/
def validate_path (fs : FSModel) (p : Rpath) : Except CleanError Unit :=
  if !(fs_exists fs p) then
    Except.error (CleanError.pathNotFound p)
  else if !(fs_is_dir fs p) && !(fs_is_file fs p) then
    Except.error (CleanError.other ("Path is not a file or directory: " ++ path_str p))
  else
    Except.ok ()

/-- Embedding of `SearchEngine::should_exclude` (search.rs:352-359). -/
def should_exclude (path : Rpath) (excludes : List Rpath) : Bool :=
  excludes.any fun exc => starts_with path exc

/-- Embedding of `SearchEngine::is_in_matched_folder` (search.rs:369-381):
true when the path lies strictly below a matched folder (a matched folder
itself is not filtered, since it still has to be processed). -/
def is_in_matched_folder (path : Rpath) (matched_folders : List Rpath) : Bool :=
  matched_folders.any fun m => !(path == m) && starts_with path m

/-- Model of `HashSet::insert` on a membership-only set: adds the element
when absent. -/
def hashset_insert (p : Rpath) (s : List Rpath) : List Rpath :=
  if s.contains p then s else p :: s

mutual
/-- The filesystem tree walked by the search engine. A `file` carries its
name, byte size and age in days; a `dir` carries its name and children; an
`errorEntry` stands for an entry that `walkdir` fails to read (unreadable
entry, broken symlink, unreadable metadata). -/
inductive FSNode where
  | file : String → Nat → Nat → FSNode
  | dir : String → FSForest → FSNode
  | errorEntry : FSNode
inductive FSForest where
  | nil : FSForest
  | cons : FSNode → FSForest → FSForest
end

mutual
/-- Embedding of `calculate_dir_size` (search.rs:68-87) on the tree below a
directory: a dedicated sub-walk summing the size of every regular file
transitively inside, with unreadable entries contributing nothing; the
outer walk's pruning state is never consulted. -/
def node_size : FSNode → Nat
  | FSNode.file _ size _ => size
  | FSNode.dir _ children => forest_size children
  | FSNode.errorEntry => 0
def forest_size : FSForest → Nat
  | FSForest.nil => 0
  | FSForest.cons n rest => node_size n + forest_size rest
end

/-- The running state of one `search_with_progress` invocation
(search.rs:109-117), with the matched-folder set (search.rs:116) and two
ghost lists recording the exact paths counted by the two scan counters. -/
structure SearchState where
  folders : List Rpath
  files : List Rpath
  total_size : Nat
  total_dirs_scanned : Nat
  total_files_scanned : Nat
  matched_folders : List Rpath
  scanned_dirs : List Rpath
  scanned_files : List Rpath
deriving DecidableEq, Repr

/-- The depth cap `walkdir` is configured with (search.rs:273-279):
unlimited when recursive and no explicit max depth (`usize::MAX`, modelled
as `none`), a single level otherwise; `depth_allows` says whether entries
at depth `d` are still enumerated. -/
def depth_allows (opts : SearchOptions) (d : Nat) : Bool :=
  match (if opts.recursive then opts.max_depth else some 1) with
  | none => true
  | some m => decide (d ≤ m)

mutual
/-- Embedding of the consumer loop of `search_with_progress`
(search.rs:120-217) fused with the `filter_entry` predicate
(search.rs:124-127) over the tree model, in the pre-order of `walkdir`:
every entry is first checked against the matched-folder filter (a rejected
directory's whole subtree is pruned), unreadable entries are skipped,
excluded entries are skipped without pruning; a visited file is counted,
filtered by size and age and matched against the file patterns; a visited
directory is counted and matched against the folder patterns, a match
being recorded in the matched set with the directory's sub-walk size added
to the total. Progress callbacks are pure I/O and are dropped. -/
def walk_node (config : Config) (opts : SearchOptions) (parent : Rpath) (depth : Nat) :
    FSNode → SearchState → SearchState
  | FSNode.errorEntry, st => st
  | FSNode.file name size age_days, st =>
    let entry_path := parent ++ [Comp.normal name]
    if is_in_matched_folder entry_path st.matched_folders then st
    else if should_exclude entry_path config.exclude then st
    else
      let st1 := { st with total_files_scanned := st.total_files_scanned + 1,
                           scanned_files := st.scanned_files ++ [entry_path] }
      if !check_size size opts.min_size opts.max_size then st1
      else if !check_age age_days opts.min_age_days opts.max_age_days then st1
      else if config.clean.files.any fun pat => match_pattern pat name then
        { st1 with files := st1.files ++ [entry_path], total_size := st1.total_size + size }
      else st1
  | FSNode.dir name children, st =>
    let entry_path := parent ++ [Comp.normal name]
    if is_in_matched_folder entry_path st.matched_folders then st
    else
      let st1 :=
        if should_exclude entry_path config.exclude then st
        else
          let st2 := { st with total_dirs_scanned := st.total_dirs_scanned + 1,
                               scanned_dirs := st.scanned_dirs ++ [entry_path] }
          if config.clean.folders.any fun pat => match_pattern pat name then
            { st2 with matched_folders := hashset_insert entry_path st2.matched_folders,
                       folders := st2.folders ++ [entry_path],
                       total_size := st2.total_size + forest_size children }
          else st2
      if depth_allows opts (depth + 1) then
        walk_forest config opts entry_path (depth + 1) children st1
      else st1
def walk_forest (config : Config) (opts : SearchOptions) (parent : Rpath) (depth : Nat) :
    FSForest → SearchState → SearchState
  | FSForest.nil, st => st
  | FSForest.cons n rest, st =>
    walk_forest config opts parent depth rest (walk_node config opts parent depth n st)
end

/-- The empty state at the start of a walk (search.rs:109-116). -/
def initial_search_state : SearchState :=
  { folders := [], files := [], total_size := 0, total_dirs_scanned := 0,
    total_files_scanned := 0, matched_folders := [], scanned_dirs := [],
    scanned_files := [] }

/-- The outer loop over the root paths (search.rs:120): all roots share one
matched-folder set and one set of counters. A root is given as the path of
its parent plus the tree at the root, so the root's entry path is
`parent ++ [name]`. -/
def walk_roots (config : Config) (opts : SearchOptions) :
    List (Rpath × FSNode) → SearchState → SearchState
  | [], st => st
  | (parent, node) :: rest, st =>
    walk_roots config opts rest (walk_node config opts parent 0 node st)

/-- Embedding of `SearchEngine::search_with_progress` (search.rs:101-227):
runs the walk and packages the state into a `SearchResult`; the function
has no failing path — every per-entry error was already skipped inside the
loop — so it always returns `Ok`. -/
def search_with_progress (paths : List (Rpath × FSNode)) (config : Config) :
    Except CleanError SearchResult :=
  let opts := options_to_search_options config.options
  let st := walk_roots config opts paths initial_search_state
  Except.ok { folders := st.folders, files := st.files, total_size := st.total_size,
              total_dirs_scanned := st.total_dirs_scanned,
              total_files_scanned := st.total_files_scanned }

/-- `p` lies strictly below `f`: distinct from `f` and having `f` as a
component-prefix (this is exactly what the prune filter tests). -/
def strictly_under (p f : Rpath) : Prop := p ≠ f ∧ f <+: p

/-- From a state `st1` to a later state `st2` of the same walk, with `f`
in the matched-folder set: `f` stays in the set and everything appended to
the folders, files and ghost scanned lists avoids the subtree strictly
below `f`. -/
def no_new_under (f : Rpath) (st1 st2 : SearchState) : Prop :=
  f ∈ st2.matched_folders ∧
  (∃ d, st2.folders = st1.folders ++ d ∧ ∀ p ∈ d, ¬ strictly_under p f) ∧
  (∃ d, st2.files = st1.files ++ d ∧ ∀ p ∈ d, ¬ strictly_under p f) ∧
  (∃ d, st2.scanned_dirs = st1.scanned_dirs ++ d ∧ ∀ p ∈ d, ¬ strictly_under p f) ∧
  (∃ d, st2.scanned_files = st1.scanned_files ++ d ∧ ∀ p ∈ d, ¬ strictly_under p f)

theorem no_new_under_refl (f : Rpath) (st : SearchState) (hf : f ∈ st.matched_folders) :
    no_new_under f st st :=
  ⟨hf, ⟨[], by simp, by simp⟩, ⟨[], by simp, by simp⟩, ⟨[], by simp, by simp⟩,
   ⟨[], by simp, by simp⟩⟩

theorem no_new_under_trans (f : Rpath) (st1 st2 st3 : SearchState)
    (h12 : no_new_under f st1 st2) (h23 : no_new_under f st2 st3) :
    no_new_under f st1 st3 := by
  obtain ⟨hm12, ⟨a1, ha1, ha1n⟩, ⟨b1, hb1, hb1n⟩, ⟨c1, hc1, hc1n⟩, ⟨d1, hd1, hd1n⟩⟩ := h12
  obtain ⟨hm23, ⟨a2, ha2, ha2n⟩, ⟨b2, hb2, hb2n⟩, ⟨c2, hc2, hc2n⟩, ⟨d2, hd2, hd2n⟩⟩ := h23
  refine ⟨hm23, ⟨a1 ++ a2, ?_, ?_⟩, ⟨b1 ++ b2, ?_, ?_⟩, ⟨c1 ++ c2, ?_, ?_⟩,
    ⟨d1 ++ d2, ?_, ?_⟩⟩
  · rw [ha2, ha1, List.append_assoc]
  · intro p hp; rcases List.mem_append.mp hp with h | h
    · exact ha1n p h
    · exact ha2n p h
  · rw [hb2, hb1, List.append_assoc]
  · intro p hp; rcases List.mem_append.mp hp with h | h
    · exact hb1n p h
    · exact hb2n p h
  · rw [hc2, hc1, List.append_assoc]
  · intro p hp; rcases List.mem_append.mp hp with h | h
    · exact hc1n p h
    · exact hc2n p h
  · rw [hd2, hd1, List.append_assoc]
  · intro p hp; rcases List.mem_append.mp hp with h | h
    · exact hd1n p h
    · exact hd2n p h

theorem mem_hashset_insert_of_mem (f p : Rpath) (s : List Rpath) (hf : f ∈ s) :
    f ∈ hashset_insert p s := by
  unfold hashset_insert
  split
  · exact hf
  · exact List.mem_cons_of_mem _ hf

theorem mem_hashset_insert_self (p : Rpath) (s : List Rpath) : p ∈ hashset_insert p s := by
  unfold hashset_insert
  split
  · exact List.elem_iff.mp (by assumption)
  · exact List.mem_cons_self _ _

theorem not_strictly_under_of_filter_false (p f : Rpath) (matched : List Rpath)
    (hf : f ∈ matched) (h : ¬(is_in_matched_folder p matched = true)) :
    ¬ strictly_under p f := by
  intro hsu
  obtain ⟨hne, hpre⟩ := hsu
  apply h
  apply List.any_eq_true.mpr
  refine ⟨f, hf, ?_⟩
  rw [Bool.and_eq_true]
  constructor
  · simp [hne]
  · exact (starts_with_iff p f).mpr hpre

mutual
theorem walk_node_no_new (config : Config) (opts : SearchOptions) (parent : Rpath)
    (depth : Nat) (node : FSNode) : ∀ st : SearchState, ∀ f : Rpath,
    f ∈ st.matched_folders → no_new_under f st (walk_node config opts parent depth node st) := by
  intro st f hf
  cases node with
  | errorEntry => exact no_new_under_refl f st hf
  | file name size age_days =>
    simp only [walk_node]
    by_cases h1 : is_in_matched_folder (parent ++ [Comp.normal name]) st.matched_folders = true
    · rw [if_pos h1]
      exact no_new_under_refl f st hf
    · rw [if_neg h1]
      have hns : ¬ strictly_under (parent ++ [Comp.normal name]) f :=
        not_strictly_under_of_filter_false _ f _ hf h1
      by_cases h2 : should_exclude (parent ++ [Comp.normal name]) config.exclude = true
      · rw [if_pos h2]
        exact no_new_under_refl f st hf
      · rw [if_neg h2]
        split_ifs with h3 h4 h5
        · exact ⟨hf, ⟨[], by simp, by simp⟩, ⟨[], by simp, by simp⟩, ⟨[], by simp, by simp⟩,
            ⟨[parent ++ [Comp.normal name]], by simp, by simpa using hns⟩⟩
        · exact ⟨hf, ⟨[], by simp, by simp⟩, ⟨[], by simp, by simp⟩, ⟨[], by simp, by simp⟩,
            ⟨[parent ++ [Comp.normal name]], by simp, by simpa using hns⟩⟩
        · exact ⟨hf, ⟨[], by simp, by simp⟩,
            ⟨[parent ++ [Comp.normal name]], by simp, by simpa using hns⟩,
            ⟨[], by simp, by simp⟩,
            ⟨[parent ++ [Comp.normal name]], by simp, by simpa using hns⟩⟩
        · exact ⟨hf, ⟨[], by simp, by simp⟩, ⟨[], by simp, by simp⟩, ⟨[], by simp, by simp⟩,
            ⟨[parent ++ [Comp.normal name]], by simp, by simpa using hns⟩⟩
  | dir name children =>
    simp only [walk_node]
    by_cases h1 : is_in_matched_folder (parent ++ [Comp.normal name]) st.matched_folders = true
    · rw [if_pos h1]
      exact no_new_under_refl f st hf
    · rw [if_neg h1]
      have hns : ¬ strictly_under (parent ++ [Comp.normal name]) f :=
        not_strictly_under_of_filter_false _ f _ hf h1
      by_cases h2 : should_exclude (parent ++ [Comp.normal name]) config.exclude = true
      · rw [if_pos h2]
        by_cases h4 : depth_allows opts (depth + 1) = true
        · rw [if_pos h4]
          exact walk_forest_no_new config opts (parent ++ [Comp.normal name]) (depth + 1)
            children st f hf
        · rw [if_neg h4]
          exact no_new_under_refl f st hf
      · rw [if_neg h2]
        by_cases h3 : (config.clean.folders.any fun pat => match_pattern pat name) = true
        · rw [if_pos h3]
          have hstep : no_new_under f st
              { st with total_dirs_scanned := st.total_dirs_scanned + 1,
                        scanned_dirs := st.scanned_dirs ++ [parent ++ [Comp.normal name]],
                        matched_folders :=
                          hashset_insert (parent ++ [Comp.normal name]) st.matched_folders,
                        folders := st.folders ++ [parent ++ [Comp.normal name]],
                        total_size := st.total_size + forest_size children } :=
            ⟨mem_hashset_insert_of_mem f _ _ hf,
             ⟨[parent ++ [Comp.normal name]], by simp, by simpa using hns⟩,
             ⟨[], by simp, by simp⟩,
             ⟨[parent ++ [Comp.normal name]], by simp, by simpa using hns⟩,
             ⟨[], by simp, by simp⟩⟩
          by_cases h4 : depth_allows opts (depth + 1) = true
          · rw [if_pos h4]
            refine no_new_under_trans f st _ _ hstep ?_
            exact walk_forest_no_new config opts (parent ++ [Comp.normal name]) (depth + 1)
              children _ f hstep.1
          · rw [if_neg h4]
            exact hstep
        · rw [if_neg h3]
          have hstep : no_new_under f st
              { st with total_dirs_scanned := st.total_dirs_scanned + 1,
                        scanned_dirs := st.scanned_dirs ++ [parent ++ [Comp.normal name]] } :=
            ⟨hf, ⟨[], by simp, by simp⟩, ⟨[], by simp, by simp⟩,
             ⟨[parent ++ [Comp.normal name]], by simp, by simpa using hns⟩,
             ⟨[], by simp, by simp⟩⟩
          by_cases h4 : depth_allows opts (depth + 1) = true
          · rw [if_pos h4]
            refine no_new_under_trans f st _ _ hstep ?_
            exact walk_forest_no_new config opts (parent ++ [Comp.normal name]) (depth + 1)
              children _ f hstep.1
          · rw [if_neg h4]
            exact hstep
theorem walk_forest_no_new (config : Config) (opts : SearchOptions) (parent : Rpath)
    (depth : Nat) (forest : FSForest) : ∀ st : SearchState, ∀ f : Rpath,
    f ∈ st.matched_folders →
    no_new_under f st (walk_forest config opts parent depth forest st) := by
  intro st f hf
  cases forest with
  | nil => exact no_new_under_refl f st hf
  | cons n rest =>
    simp only [walk_forest]
    have h1 := walk_node_no_new config opts parent depth n st f hf
    have h2 := walk_forest_no_new config opts parent depth rest
      (walk_node config opts parent depth n st) f h1.1
    exact no_new_under_trans f st _ _ h1 h2
end

theorem walk_roots_no_new (config : Config) (opts : SearchOptions)
    (paths : List (Rpath × FSNode)) : ∀ st : SearchState, ∀ f : Rpath,
    f ∈ st.matched_folders → no_new_under f st (walk_roots config opts paths st) := by
  induction paths with
  | nil => intro st f hf; exact no_new_under_refl f st hf
  | cons root rest ih =>
    intro st f hf
    obtain ⟨parent, node⟩ := root
    simp only [walk_roots]
    have h1 := walk_node_no_new config opts parent 0 node st f hf
    have h2 := ih (walk_node config opts parent 0 node st) f h1.1
    exact no_new_under_trans f st _ _ h1 h2

mutual
theorem walk_node_folders_sub (config : Config) (opts : SearchOptions) (parent : Rpath)
    (depth : Nat) (node : FSNode) : ∀ st : SearchState,
    (∀ x ∈ st.folders, x ∈ st.matched_folders) →
    ∀ x ∈ (walk_node config opts parent depth node st).folders,
      x ∈ (walk_node config opts parent depth node st).matched_folders := by
  intro st hsub
  cases node with
  | errorEntry => exact hsub
  | file name size age_days =>
    simp only [walk_node]
    split_ifs <;> exact hsub
  | dir name children =>
    simp only [walk_node]
    by_cases h1 : is_in_matched_folder (parent ++ [Comp.normal name]) st.matched_folders = true
    · rw [if_pos h1]
      exact hsub
    · rw [if_neg h1]
      by_cases h2 : should_exclude (parent ++ [Comp.normal name]) config.exclude = true
      · rw [if_pos h2]
        by_cases h4 : depth_allows opts (depth + 1) = true
        · rw [if_pos h4]
          exact walk_forest_folders_sub config opts (parent ++ [Comp.normal name]) (depth + 1)
            children st hsub
        · rw [if_neg h4]
          exact hsub
      · rw [if_neg h2]
        by_cases h3 : (config.clean.folders.any fun pat => match_pattern pat name) = true
        · rw [if_pos h3]
          have hstep : ∀ x ∈ st.folders ++ [parent ++ [Comp.normal name]],
              x ∈ hashset_insert (parent ++ [Comp.normal name]) st.matched_folders := by
            intro x hx
            rcases List.mem_append.mp hx with hx | hx
            · exact mem_hashset_insert_of_mem x _ _ (hsub x hx)
            · rw [List.mem_singleton.mp hx]
              exact mem_hashset_insert_self _ _
          by_cases h4 : depth_allows opts (depth + 1) = true
          · rw [if_pos h4]
            exact walk_forest_folders_sub config opts (parent ++ [Comp.normal name])
              (depth + 1) children _ hstep
          · rw [if_neg h4]
            exact hstep
        · rw [if_neg h3]
          by_cases h4 : depth_allows opts (depth + 1) = true
          · rw [if_pos h4]
            exact walk_forest_folders_sub config opts (parent ++ [Comp.normal name])
              (depth + 1) children _ hsub
          · rw [if_neg h4]
            exact hsub
theorem walk_forest_folders_sub (config : Config) (opts : SearchOptions) (parent : Rpath)
    (depth : Nat) (forest : FSForest) : ∀ st : SearchState,
    (∀ x ∈ st.folders, x ∈ st.matched_folders) →
    ∀ x ∈ (walk_forest config opts parent depth forest st).folders,
      x ∈ (walk_forest config opts parent depth forest st).matched_folders := by
  intro st hsub
  cases forest with
  | nil => exact hsub
  | cons n rest =>
    simp only [walk_forest]
    exact walk_forest_folders_sub config opts parent depth rest _
      (walk_node_folders_sub config opts parent depth n st hsub)
end

theorem walk_roots_folders_sub (config : Config) (opts : SearchOptions)
    (paths : List (Rpath × FSNode)) : ∀ st : SearchState,
    (∀ x ∈ st.folders, x ∈ st.matched_folders) →
    ∀ x ∈ (walk_roots config opts paths st).folders,
      x ∈ (walk_roots config opts paths st).matched_folders := by
  induction paths with
  | nil => intro st hsub; exact hsub
  | cons root rest ih =>
    intro st hsub
    obtain ⟨parent, node⟩ := root
    simp only [walk_roots]
    exact ih _ (walk_node_folders_sub config opts parent 0 node st hsub)

mutual
theorem walk_node_counts (config : Config) (opts : SearchOptions) (parent : Rpath)
    (depth : Nat) (node : FSNode) : ∀ st : SearchState,
    st.total_dirs_scanned = st.scanned_dirs.length →
    st.total_files_scanned = st.scanned_files.length →
    (walk_node config opts parent depth node st).total_dirs_scanned =
      (walk_node config opts parent depth node st).scanned_dirs.length ∧
    (walk_node config opts parent depth node st).total_files_scanned =
      (walk_node config opts parent depth node st).scanned_files.length := by
  intro st hd hfi
  cases node with
  | errorEntry => exact ⟨hd, hfi⟩
  | file name size age_days =>
    simp only [walk_node]
    split_ifs <;> simp [hd, hfi]
  | dir name children =>
    simp only [walk_node]
    by_cases h1 : is_in_matched_folder (parent ++ [Comp.normal name]) st.matched_folders = true
    · rw [if_pos h1]
      exact ⟨hd, hfi⟩
    · rw [if_neg h1]
      by_cases h2 : should_exclude (parent ++ [Comp.normal name]) config.exclude = true
      · rw [if_pos h2]
        by_cases h4 : depth_allows opts (depth + 1) = true
        · rw [if_pos h4]
          exact walk_forest_counts config opts (parent ++ [Comp.normal name]) (depth + 1)
            children st hd hfi
        · rw [if_neg h4]
          exact ⟨hd, hfi⟩
      · rw [if_neg h2]
        by_cases h3 : (config.clean.folders.any fun pat => match_pattern pat name) = true
        · rw [if_pos h3]
          by_cases h4 : depth_allows opts (depth + 1) = true
          · rw [if_pos h4]
            exact walk_forest_counts config opts (parent ++ [Comp.normal name]) (depth + 1)
              children _ (by simp [hd]) (by simp [hfi])
          · rw [if_neg h4]
            exact ⟨by simp [hd], by simp [hfi]⟩
        · rw [if_neg h3]
          by_cases h4 : depth_allows opts (depth + 1) = true
          · rw [if_pos h4]
            exact walk_forest_counts config opts (parent ++ [Comp.normal name]) (depth + 1)
              children _ (by simp [hd]) (by simp [hfi])
          · rw [if_neg h4]
            exact ⟨by simp [hd], by simp [hfi]⟩
theorem walk_forest_counts (config : Config) (opts : SearchOptions) (parent : Rpath)
    (depth : Nat) (forest : FSForest) : ∀ st : SearchState,
    st.total_dirs_scanned = st.scanned_dirs.length →
    st.total_files_scanned = st.scanned_files.length →
    (walk_forest config opts parent depth forest st).total_dirs_scanned =
      (walk_forest config opts parent depth forest st).scanned_dirs.length ∧
    (walk_forest config opts parent depth forest st).total_files_scanned =
      (walk_forest config opts parent depth forest st).scanned_files.length := by
  intro st hd hfi
  cases forest with
  | nil => exact ⟨hd, hfi⟩
  | cons n rest =>
    simp only [walk_forest]
    obtain ⟨hd2, hfi2⟩ := walk_node_counts config opts parent depth n st hd hfi
    exact walk_forest_counts config opts parent depth rest _ hd2 hfi2
end

theorem walk_roots_counts (config : Config) (opts : SearchOptions)
    (paths : List (Rpath × FSNode)) : ∀ st : SearchState,
    st.total_dirs_scanned = st.scanned_dirs.length →
    st.total_files_scanned = st.scanned_files.length →
    (walk_roots config opts paths st).total_dirs_scanned =
      (walk_roots config opts paths st).scanned_dirs.length ∧
    (walk_roots config opts paths st).total_files_scanned =
      (walk_roots config opts paths st).scanned_files.length := by
  induction paths with
  | nil => intro st hd hfi; exact ⟨hd, hfi⟩
  | cons root rest ih =>
    intro st hd hfi
    obtain ⟨parent, node⟩ := root
    simp only [walk_roots]
    obtain ⟨hd2, hfi2⟩ := walk_node_counts config opts parent 0 node st hd hfi
    exact ih _ hd2 hfi2

/-- The documented pruning example: tree root/node_modules/sub/file.txt. -/
def c2_tree : FSNode :=
  FSNode.dir "root" (FSForest.cons (FSNode.dir "node_modules" (FSForest.cons
    (FSNode.dir "sub" (FSForest.cons (FSNode.file "file.txt" 5 0) FSForest.nil))
    FSForest.nil)) FSForest.nil)

/-- Folder pattern node_modules, nothing else configured. -/
def c2_config : Config :=
  { clean := { folders := ["node_modules"], files := [] }, exclude := [],
    options := { recursive := true, follow_symlinks := false, min_size := none,
                 max_size := none, min_age_days := none, max_age_days := none } }

/-- C2: once a directory is in the matched-folder set, the remainder of the
walk appends nothing strictly beneath it to folders, files, or the ghost
lists recording what the two scan counters count (`no_new_under`), and a
directory enters the matched set at the same step it enters folders, so
every folder of the final state is in the matched set; the counters always
equal the ghost-list lengths; and on the documented tree
root/node_modules/sub/file.txt with pattern node_modules the result is
folders = [root/node_modules], files = [], 2 directories and 0 files
scanned — neither sub nor file.txt is counted. -/
theorem matched_folder_pruning (config : Config) (opts : SearchOptions)
    (paths : List (Rpath × FSNode)) (st : SearchState) (f : Rpath) :
    (f ∈ st.matched_folders → no_new_under f st (walk_roots config opts paths st)) ∧
    ((∀ x ∈ st.folders, x ∈ st.matched_folders) →
      ∀ x ∈ (walk_roots config opts paths st).folders,
        x ∈ (walk_roots config opts paths st).matched_folders) ∧
    (st.total_dirs_scanned = st.scanned_dirs.length →
      st.total_files_scanned = st.scanned_files.length →
      (walk_roots config opts paths st).total_dirs_scanned =
        (walk_roots config opts paths st).scanned_dirs.length ∧
      (walk_roots config opts paths st).total_files_scanned =
        (walk_roots config opts paths st).scanned_files.length) ∧
    search_with_progress [([], c2_tree)] c2_config =
      Except.ok { folders := [[Comp.normal "root", Comp.normal "node_modules"]], files := [],
                  total_size := 5, total_dirs_scanned := 2, total_files_scanned := 0 } := by
  refine ⟨fun hf => walk_roots_no_new config opts paths st f hf,
    fun hsub => walk_roots_folders_sub config opts paths st hsub,
    fun hd hfi => walk_roots_counts config opts paths st hd hfi,
    rfl⟩

/-- Witness for C2 at a concrete input: with /q already matched, walking a
fresh root appends nothing under /q, folders stay inside the matched set,
and the counters match the ghost lists. -/
theorem matched_folder_pruning_witness :
    no_new_under [Comp.normal "q"]
      { initial_search_state with matched_folders := [[Comp.normal "q"]] }
      (walk_roots c2_config (options_to_search_options c2_config.options) [([], c2_tree)]
        { initial_search_state with matched_folders := [[Comp.normal "q"]] }) ∧
    (∀ x ∈ (walk_roots c2_config (options_to_search_options c2_config.options) [([], c2_tree)]
        { initial_search_state with matched_folders := [[Comp.normal "q"]] }).folders,
      x ∈ (walk_roots c2_config (options_to_search_options c2_config.options) [([], c2_tree)]
        { initial_search_state with matched_folders := [[Comp.normal "q"]] }).matched_folders) ∧
    (walk_roots c2_config (options_to_search_options c2_config.options) [([], c2_tree)]
        { initial_search_state with matched_folders := [[Comp.normal "q"]] }).total_dirs_scanned =
      (walk_roots c2_config (options_to_search_options c2_config.options) [([], c2_tree)]
        { initial_search_state with matched_folders := [[Comp.normal "q"]] }).scanned_dirs.length :=
  ⟨(matched_folder_pruning c2_config (options_to_search_options c2_config.options) [([], c2_tree)]
      { initial_search_state with matched_folders := [[Comp.normal "q"]] }
      [Comp.normal "q"]).1 (by decide),
   (matched_folder_pruning c2_config (options_to_search_options c2_config.options) [([], c2_tree)]
      { initial_search_state with matched_folders := [[Comp.normal "q"]] }
      [Comp.normal "q"]).2.1 (by decide),
   ((matched_folder_pruning c2_config (options_to_search_options c2_config.options) [([], c2_tree)]
      { initial_search_state with matched_folders := [[Comp.normal "q"]] }
      [Comp.normal "q"]).2.2.1 (by decide) (by decide)).1⟩

/-- Folder pattern with a wildcard and no trailing slash. -/
def c3_config : Config :=
  { clean := { folders := ["s*"], files := [] }, exclude := [],
    options := { recursive := true, follow_symlinks := false, min_size := none,
                 max_size := none, min_age_days := none, max_age_days := none } }

/-- C3 counterexample: with folder pattern s* (no trailing separator) the
walker matches the directory src — the stripped pattern is not equal to
the base name, and the star did act as a wildcard, so exact equality is
not the criterion for such patterns. -/
theorem folder_wildcard_counterexample :
    search_with_progress
        [([], FSNode.dir "proj" (FSForest.cons (FSNode.dir "src" FSForest.nil) FSForest.nil))]
        c3_config =
      Except.ok { folders := [[Comp.normal "proj", Comp.normal "src"]], files := [],
                  total_size := 0, total_dirs_scanned := 2, total_files_scanned := 0 } ∧
    trim_end_slashes "s*".toList ≠ "src".toList :=
  ⟨rfl, by decide⟩

/-- C3 (amended): a folder pattern ending in a path separator is matched by
exact equality between the pattern with all trailing separators stripped
and the directory's base name; a folder pattern with no trailing separator
is evaluated by the glob matcher, in which * and ? are wildcards. -/
theorem folder_pattern_two_regimes (pattern name : String) :
    (pattern.toList.getLast? = some '/' →
      (match_pattern pattern name = true ↔ trim_end_slashes pattern.toList = name.toList)) ∧
    (¬(pattern.toList.getLast? = some '/') →
      match_pattern pattern name = glob_match pattern name) := by
  constructor
  · intro h
    unfold match_pattern
    rw [if_pos (by simpa using h)]
    exact beq_iff_eq
  · intro h
    unfold match_pattern
    rw [if_neg (by simpa using h)]

/-- Witness for C3 at concrete inputs: a slash-terminated pattern matched
by equality, a slash-free pattern handed to the glob matcher. -/
theorem folder_pattern_two_regimes_witness :
    match_pattern "node_modules/" "node_modules" = true ∧
    match_pattern "nod*" "node_modules" = glob_match "nod*" "node_modules" :=
  ⟨((folder_pattern_two_regimes "node_modules/" "node_modules").1 (by decide)).mpr (by decide),
   (folder_pattern_two_regimes "nod*" "node_modules").2 (by decide)⟩

/-- C8: the search operation has no failing path — it always returns Ok,
and an unreadable entry leaves the state untouched (excluded from results
and counters); the two fatal validations are characterized exactly: the
config validator fails precisely on an empty match specification (no
folder and no file patterns), and the path validator fails precisely on a
root that does not exist in the filesystem model. -/
theorem search_error_surface :
    (∀ paths config, ∃ r, search_with_progress paths config = Except.ok r) ∧
    (∀ config opts parent depth st,
      walk_node config opts parent depth FSNode.errorEntry st = st) ∧
    (∀ config, (∃ e, validate_config config = Except.error e) ↔
      (config.clean.folders = [] ∧ config.clean.files = [])) ∧
    (∀ fs p, (∃ e, validate_path fs p = Except.error e) ↔ fs_exists fs p = false) := by
  refine ⟨fun paths config => ⟨_, rfl⟩, fun _ _ _ _ _ => rfl, ?_, ?_⟩
  · intro config
    unfold validate_config
    by_cases h : (config.clean.folders.isEmpty && config.clean.files.isEmpty) = true
    · rw [if_pos h]
      simp only [Bool.and_eq_true, List.isEmpty_iff] at h
      exact iff_of_true ⟨_, rfl⟩ h
    · rw [if_neg h]
      simp only [Bool.and_eq_true, List.isEmpty_iff] at h
      constructor
      · rintro ⟨e, he⟩
        exact absurd he (by simp)
      · intro hh
        exact absurd hh h
  · intro fs p
    unfold validate_path
    by_cases h : fs_exists fs p = true
    · rw [if_neg (by simp [h])]
      have hdf : (!(fs_is_dir fs p) && !(fs_is_file fs p)) = false := by
        unfold fs_exists at h
        rcases Bool.or_eq_true_iff.mp h with hh | hh <;> simp [hh]
      rw [if_neg (by simp [hdf])]
      constructor
      · rintro ⟨e, he⟩
        exact absurd he (by simp)
      · intro hh
        rw [h] at hh
        cases hh
    · rw [if_pos (by simp [Bool.eq_false_iff.mpr h])]
      exact iff_of_true ⟨_, rfl⟩ (Bool.eq_false_iff.mpr h)
